import Mathlib

/-!
Shallow embedding of the concurrent executor registry implemented in
`.devcontainer/init/functions/concurrency/executor.py`.

The Python module keeps a process-wide dict `_executors : Dict[str, Executor]`
guarded by `_executor_lock`, and exposes
  * `get_optimal_workers(task_type)` — worker-count sizing heuristic,
  * `get_executor(name, executor_type, workers)` — get-or-create a named pool,
  * `parallel_map(func, items, ...)` — fan a callable out over a batch,
  * `shutdown_executors()` — best-effort teardown of every registered pool.

Modelling choices:
  * The dict is an association list with unique keys (`RegState.executors`);
    dict lookup and assignment are `lookupReg` / `insertReg`.
  * A `concurrent.futures` executor object is the structure `Executor`;
    its `_shutdown` attribute is the field `isShutdown`, object identity is
    the field `id` (fresh ids are drawn from `RegState.nextId`), and whether
    a call to `.shutdown(wait=False)` on it would raise is the behaviour
    flag `shutdownRaises`.
  * `os.cpu_count()` is an input of type `Except Unit (Option Nat)`:
    `.error ()` models the call raising (the `except Exception` branch of
    `get_optimal_workers`), `.ok none` models a `None` return.
  * Raising `ConcurrencyError` is returning `Except.error` of `ExecError`.
  * Since `_executor_lock` is held for the whole mutating body of
    `get_executor` and of `shutdown_executors`, concurrent invocations are
    serialized; traces of atomic registry operations (`RegOp`, `runOps`)
    model all interleavings.
  * The nondeterministic timing of a submitted task is made explicit: the
    behaviour of `func` on an item is a `TaskRun`, carrying a completion
    time and an outcome; `concurrent.futures.as_completed` yields futures
    in completion-time order (`sortByTime`) and times out when some task
    completes later than the deadline.
  * `logger` calls are modelled, where a claim needs them, as explicit
    outputs: the per-item error records of `parallel_map`
    (`MapOutcome.recorded`), its logged pending count on timeout
    (`MapOutcome.pendingLogged`), and the warnings of `shutdown_executors`.
-/

/-- ASCII lowering of a string, modelling Python `str.lower()` on the
kind/task-type strings the module compares (all ASCII). -/
def pyLower (s : String) : String :=
  ⟨s.data.map Char.toLower⟩

/-- The two supported pool kinds: `ThreadPoolExecutor` and
`ProcessPoolExecutor`. -/
inductive ExecKind where
  | thread
  | process
deriving DecidableEq

/-- Model of a `concurrent.futures` executor object as created and tracked
by the registry. `id` models Python object identity, `isShutdown` the
`_shutdown` attribute read by `get_executor`, `maxWorkers` the
`max_workers` the pool was created with, and `shutdownRaises` whether a
call to `.shutdown(wait=False)` on this object raises. -/
structure Executor where
  id : Nat
  kind : ExecKind
  maxWorkers : Nat
  isShutdown : Bool
  shutdownRaises : Bool
deriving DecidableEq

/-- The module-level mutable state: the `_executors` dict (as an
association list) plus a counter supplying fresh object identities. -/
structure RegState where
  executors : List (String × Executor)
  nextId : Nat
deriving DecidableEq

/-- The initial module state: empty `_executors` dict. -/
def initState : RegState := ⟨[], 0⟩

/-- Dict lookup `_executors[name]` / `name in _executors` on the
association-list model. -/
def lookupReg : List (String × Executor) → String → Option Executor
  | [], _ => none
  | (k, v) :: rest, n => if k = n then some v else lookupReg rest n

/-- Dict assignment `_executors[name] = ex`: replaces the binding if the
key is present, appends it otherwise. -/
def insertReg : List (String × Executor) → String → Executor → List (String × Executor)
  | [], n, ex => [(n, ex)]
  | (k, v) :: rest, n, ex => if k = n then (k, ex) :: rest else (k, v) :: insertReg rest n ex

/-- Result of `os.cpu_count()`: `.error ()` models the call raising,
`.ok none` a `None` return, `.ok (some n)` a reported core count. -/
abbrev CpuCores := Except Unit (Option Nat)

/-- `cpu_count = os.cpu_count() or 4`: Python `or` replaces both `None`
and a falsy `0` by `4`. -/
def cpuCountOr4 : Option Nat → Nat
  | none => 4
  | some n => if n = 0 then 4 else n

/-- `get_optimal_workers(task_type)`: sizes a pool from the detected core
count; `max(1, cpu_count - 1)` for cpu-bound work, `cpu_count * 2` for
io-bound work, `cpu_count` otherwise, with the comparisons done on
`task_type.lower()`; returns the fallback `4` when detection raises. -/
def get_optimal_workers (cores : CpuCores) (taskType : String) : Nat :=
  match cores with
  | .error _ => 4
  | .ok c =>
    let cpuCount := cpuCountOr4 c
    if pyLower taskType = "cpu" then max 1 (cpuCount - 1)
    else if pyLower taskType = "io" then cpuCount * 2
    else cpuCount

/-- The `ConcurrencyError`s raised by the module: an invalid
`executor_type` passed to `get_executor`, or the batch timeout raised by
`parallel_map` (whose message carries the timeout in seconds). -/
inductive ExecError where
  | invalidKind (typeStr : String)
  | timedOut (seconds : Nat)
deriving DecidableEq

/-- The creation half of `get_executor` (the code after the stale-entry
cleanup): dispatch on `executor_type.lower()`, auto-size with
`get_optimal_workers` when `workers` is not positive, store the new pool
in `_executors[name]` and return it; raise `ConcurrencyError` for any
other kind string. -/
def createExecutor (cores : CpuCores) (name execType : String) (workers : Nat)
    (s : RegState) : Except ExecError Executor × RegState :=
  if pyLower execType = "process" then
    let workerCount := if 0 < workers then workers else get_optimal_workers cores "cpu"
    let ex : Executor := ⟨s.nextId, .process, workerCount, false, false⟩
    (.ok ex, ⟨insertReg s.executors name ex, s.nextId + 1⟩)
  else if pyLower execType = "thread" then
    let workerCount := if 0 < workers then workers else get_optimal_workers cores "io"
    let ex : Executor := ⟨s.nextId, .thread, workerCount, false, false⟩
    (.ok ex, ⟨insertReg s.executors name ex, s.nextId + 1⟩)
  else (.error (.invalidKind execType), s)

/-- `get_executor(name, executor_type, workers)`, the whole body running
under `_executor_lock`: if `name` maps to an executor whose `_shutdown`
flag is not set, return it unchanged; otherwise call
`.shutdown(wait=False)` on the stale entry (modelled by re-storing it
with `isShutdown := true`; the `try/except` around that call swallows any
error) and fall through to creation. -/
def get_executor (cores : CpuCores) (name execType : String) (workers : Nat)
    (s : RegState) : Except ExecError Executor × RegState :=
  match lookupReg s.executors name with
  | some ex =>
    if ex.isShutdown = false then (.ok ex, s)
    else
      createExecutor cores name execType workers
        ⟨insertReg s.executors name { ex with isShutdown := true }, s.nextId⟩
  | none => createExecutor cores name execType workers s

/-- The behaviour of `func` on one submitted item: the task's completion
time (in the discrete time units the timeout is measured in) and its
outcome — a result, or the message of the exception it raises. -/
structure TaskRun (R : Type) where
  time : Nat
  outcome : Except String R

/-- Insert one `(item, run)` pair into a list sorted by completion time. -/
def insertByTime {T R : Type} (p : T × TaskRun R) :
    List (T × TaskRun R) → List (T × TaskRun R)
  | [] => [p]
  | q :: rest => if p.2.time < q.2.time then p :: q :: rest else q :: insertByTime p rest

/-- The order in which `concurrent.futures.as_completed` yields the
futures of a batch: sorted by completion time. -/
def sortByTime {T R : Type} (l : List (T × TaskRun R)) : List (T × TaskRun R) :=
  l.foldr insertByTime []

/-- The result-collection loop of `parallel_map`: for each completed
future in completion order, `future.result()` either extends `results`
or appends `(item, exception)` to `errors` (each failure also being
logged via `logger.error`). Returns `(results, errors)`. -/
def collectCompleted {T R : Type} (completed : List (T × TaskRun R)) :
    List R × List (T × String) :=
  completed.foldl
    (fun acc p =>
      match p.2.outcome with
      | .ok r => (acc.1 ++ [r], acc.2)
      | .error e => (acc.1, acc.2 ++ [(p.1, e)]))
    ([], [])

/-- Everything observable about one `parallel_map` call: its return value
or raised `ConcurrencyError`, the `errors` list it accumulated (whose
entries are also logged), the pending-task count logged on timeout, and
the registry state after the call. -/
structure MapOutcome (T R : Type) where
  result : Except ExecError (List R)
  recorded : List (T × String)
  pendingLogged : Option Nat
  state : RegState

/-- `parallel_map(func, items, executor_name, executor_type, workers,
timeout, chunk_size)`: an empty batch returns `[]` at once; otherwise the
named pool is obtained via `get_executor`, one task per item is submitted
(`run` gives each task's behaviour), and completions are collected in
completion order. If some task completes later than the `timeout`
deadline, `as_completed` raises; the handler counts the futures not yet
done, logs that count, and raises `ConcurrencyError` mentioning the
timeout — discarding the results and error records gathered so far (only
failures that completed before the deadline were logged). The executor is
never shut down here. `chunkSize` is accepted and unused, as in the
source. -/
def parallel_map {T R : Type} (cores : CpuCores) (run : T → TaskRun R)
    (items : List T) (execName execType : String) (workers : Nat)
    (timeout : Option Nat) (chunkSize : Nat) (s : RegState) : MapOutcome T R :=
  if items.isEmpty then ⟨.ok [], [], none, s⟩
  else
    match get_executor cores execName execType workers s with
    | (.error e, s1) => ⟨.error e, [], none, s1⟩
    | (.ok _, s1) =>
      let _ := chunkSize
      let tasks := items.map fun it => (it, run it)
      match timeout with
      | none =>
        let collected := collectCompleted (sortByTime tasks)
        ⟨.ok collected.1, collected.2, none, s1⟩
      | some t =>
        if tasks.all (fun p => p.2.time ≤ t) then
          let collected := collectCompleted (sortByTime tasks)
          ⟨.ok collected.1, collected.2, none, s1⟩
        else
          ⟨.error (.timedOut t),
           (collectCompleted (sortByTime (tasks.filter fun p => p.2.time ≤ t))).2,
           some ((tasks.filter fun p => ¬ p.2.time ≤ t).length), s1⟩

/-- `shutdown_executors()`, the whole body running under
`_executor_lock`: call `.shutdown(wait=False)` on every registered
executor — a raising shutdown is caught, logged as a warning and skipped —
then clear the dict. Returns the new state and the names whose shutdown
raised (the logged warnings). -/
def shutdown_executors (s : RegState) : RegState × List String :=
  (⟨[], s.nextId⟩, (s.executors.filter fun p => p.2.shutdownRaises).map Prod.fst)

/-- One serialized registry operation: both mutators hold
`_executor_lock` for their whole body, so any concurrent history is some
sequence of these. -/
inductive RegOp where
  | getOrCreate (cores : CpuCores) (name execType : String) (workers : Nat)
  | shutdownAll

/-- Apply one serialized registry operation to the module state. -/
def applyOp (s : RegState) : RegOp → RegState
  | .getOrCreate cores name execType workers =>
    (get_executor cores name execType workers s).2
  | .shutdownAll => (shutdown_executors s).1

/-- Run a serialized trace of registry operations from a starting state. -/
def runOps (s : RegState) (ops : List RegOp) : RegState :=
  ops.foldl applyOp s

/-! ### Registry lemmas -/

theorem lookupReg_insertReg_self (l : List (String × Executor)) (n : String) (ex : Executor) :
    lookupReg (insertReg l n ex) n = some ex := by
  induction l with
  | nil => simp [insertReg, lookupReg]
  | cons hd tl ih =>
    obtain ⟨k, v⟩ := hd
    by_cases hk : k = n
    · simp [insertReg, hk, lookupReg]
    · simp [insertReg, hk, lookupReg, ih]

theorem createExecutor_ok_live (cores : CpuCores) (name execType : String) (workers : Nat)
    (s : RegState) (ex : Executor) (s1 : RegState)
    (h : createExecutor cores name execType workers s = (.ok ex, s1)) :
    lookupReg s1.executors name = some ex ∧ ex.isShutdown = false := by
  unfold createExecutor at h
  by_cases h1 : pyLower execType = "process"
  · rw [if_pos h1] at h
    simp only [Prod.mk.injEq, Except.ok.injEq] at h
    obtain ⟨hex, hs⟩ := h
    subst hex; subst hs
    exact ⟨lookupReg_insertReg_self _ _ _, rfl⟩
  · rw [if_neg h1] at h
    by_cases h2 : pyLower execType = "thread"
    · rw [if_pos h2] at h
      simp only [Prod.mk.injEq, Except.ok.injEq] at h
      obtain ⟨hex, hs⟩ := h
      subst hex; subst hs
      exact ⟨lookupReg_insertReg_self _ _ _, rfl⟩
    · rw [if_neg h2] at h
      simp at h

theorem get_executor_ok_live (cores : CpuCores) (name execType : String) (workers : Nat)
    (s : RegState) (ex : Executor) (s1 : RegState)
    (h : get_executor cores name execType workers s = (.ok ex, s1)) :
    lookupReg s1.executors name = some ex ∧ ex.isShutdown = false := by
  unfold get_executor at h
  cases hlook : lookupReg s.executors name with
  | none =>
    rw [hlook] at h
    exact createExecutor_ok_live _ _ _ _ _ _ _ h
  | some ex0 =>
    rw [hlook] at h
    dsimp only at h
    by_cases hsd : ex0.isShutdown = false
    · rw [if_pos hsd] at h
      simp only [Prod.mk.injEq, Except.ok.injEq] at h
      obtain ⟨hex, hs⟩ := h
      subst hex; subst hs
      exact ⟨hlook, hsd⟩
    · rw [if_neg hsd] at h
      exact createExecutor_ok_live _ _ _ _ _ _ _ h

theorem get_executor_of_live (cores : CpuCores) (name execType : String) (workers : Nat)
    (s : RegState) (ex : Executor)
    (hlook : lookupReg s.executors name = some ex) (hsd : ex.isShutdown = false) :
    get_executor cores name execType workers s = (.ok ex, s) := by
  unfold get_executor
  rw [hlook]
  dsimp only
  rw [if_pos hsd]

/-! ### Batch-collection lemmas -/

/-- The successful results of a completed batch, in the order given. -/
def okResults {T R : Type} (l : List (T × TaskRun R)) : List R :=
  l.filterMap fun p => p.2.outcome.toOption

/-- The failures of a completed batch, each paired with its offending
item, in the order given. -/
def errRecords {T R : Type} (l : List (T × TaskRun R)) : List (T × String) :=
  l.filterMap fun p =>
    match p.2.outcome with
    | .error e => some (p.1, e)
    | .ok _ => none

theorem collectCompleted_go {T R : Type} (l : List (T × TaskRun R))
    (rs : List R) (es : List (T × String)) :
    l.foldl
      (fun acc p =>
        match p.2.outcome with
        | .ok r => (acc.1 ++ [r], acc.2)
        | .error e => (acc.1, acc.2 ++ [(p.1, e)]))
      (rs, es) = (rs ++ okResults l, es ++ errRecords l) := by
  induction l generalizing rs es with
  | nil => simp [okResults, errRecords]
  | cons hd tl ih =>
    cases hout : hd.2.outcome with
    | ok r =>
      simp only [List.foldl_cons, hout, ih]
      simp [okResults, errRecords, List.filterMap_cons, hout, Except.toOption]
    | error e =>
      simp only [List.foldl_cons, hout, ih]
      simp [okResults, errRecords, List.filterMap_cons, hout, Except.toOption]

theorem collectCompleted_eq {T R : Type} (l : List (T × TaskRun R)) :
    collectCompleted l = (okResults l, errRecords l) := by
  have h := collectCompleted_go l [] []
  simpa [collectCompleted] using h

theorem insertByTime_perm {T R : Type} (p : T × TaskRun R) (l : List (T × TaskRun R)) :
    (insertByTime p l).Perm (p :: l) := by
  induction l with
  | nil => exact List.Perm.refl _
  | cons q rest ih =>
    unfold insertByTime
    by_cases hlt : p.2.time < q.2.time
    · rw [if_pos hlt]
    · rw [if_neg hlt]
      exact (ih.cons q).trans (List.Perm.swap p q rest)

theorem sortByTime_perm {T R : Type} (l : List (T × TaskRun R)) :
    (sortByTime l).Perm l := by
  induction l with
  | nil => exact List.Perm.refl _
  | cons hd tl ih =>
    have h1 : sortByTime (hd :: tl) = insertByTime hd (sortByTime tl) := rfl
    rw [h1]
    exact (insertByTime_perm hd (sortByTime tl)).trans (ih.cons hd)

/-! ### Unique-keys invariant of the registry -/

/-- The registry models a Python dict: its keys never repeat. -/
def keysNodup (s : RegState) : Prop :=
  (s.executors.map Prod.fst).Nodup

theorem mem_keys_insertReg (l : List (String × Executor)) (n : String) (ex : Executor)
    (a : String) (h : a ∈ (insertReg l n ex).map Prod.fst) :
    a = n ∨ a ∈ l.map Prod.fst := by
  induction l with
  | nil => simpa [insertReg] using h
  | cons hd tl ih =>
    obtain ⟨k, v⟩ := hd
    by_cases hk : k = n
    · simp only [insertReg, if_pos hk, List.map_cons, List.mem_cons] at h
      rcases h with h | h
      · right; simp [h]
      · right; simp [h]
    · simp only [insertReg, if_neg hk, List.map_cons, List.mem_cons] at h
      rcases h with h | h
      · right; simp [h]
      · rcases ih h with h1 | h1
        · exact Or.inl h1
        · right; simp [h1]

theorem keysNodup_insertReg (l : List (String × Executor)) (n : String) (ex : Executor)
    (h : (l.map Prod.fst).Nodup) : ((insertReg l n ex).map Prod.fst).Nodup := by
  induction l with
  | nil => simp [insertReg]
  | cons hd tl ih =>
    obtain ⟨k, v⟩ := hd
    simp only [List.map_cons, List.nodup_cons] at h
    obtain ⟨hk_not, htl⟩ := h
    by_cases hk : k = n
    · simp only [insertReg, if_pos hk, List.map_cons, List.nodup_cons]
      exact ⟨hk_not, htl⟩
    · simp only [insertReg, if_neg hk, List.map_cons, List.nodup_cons]
      refine ⟨fun hmem => ?_, ih htl⟩
      rcases mem_keys_insertReg tl n ex k hmem with h1 | h1
      · exact hk h1
      · exact hk_not h1

theorem keysNodup_createExecutor (cores : CpuCores) (name execType : String)
    (workers : Nat) (s : RegState) (h : keysNodup s) :
    keysNodup (createExecutor cores name execType workers s).2 := by
  unfold createExecutor
  by_cases h1 : pyLower execType = "process"
  · rw [if_pos h1]
    exact keysNodup_insertReg _ _ _ h
  · rw [if_neg h1]
    by_cases h2 : pyLower execType = "thread"
    · rw [if_pos h2]
      exact keysNodup_insertReg _ _ _ h
    · rw [if_neg h2]
      exact h

theorem keysNodup_get_executor (cores : CpuCores) (name execType : String)
    (workers : Nat) (s : RegState) (h : keysNodup s) :
    keysNodup (get_executor cores name execType workers s).2 := by
  unfold get_executor
  cases hlook : lookupReg s.executors name with
  | none => exact keysNodup_createExecutor _ _ _ _ _ h
  | some ex0 =>
    dsimp only
    by_cases hsd : ex0.isShutdown = false
    · rw [if_pos hsd]
      exact h
    · rw [if_neg hsd]
      exact keysNodup_createExecutor _ _ _ _ _ (keysNodup_insertReg _ _ _ h)

theorem keysNodup_runOps (ops : List RegOp) (s : RegState) (h : keysNodup s) :
    keysNodup (runOps s ops) := by
  induction ops generalizing s with
  | nil => exact h
  | cons op rest ih =>
    cases op with
    | getOrCreate cores name execType workers =>
      exact ih _ (keysNodup_get_executor cores name execType workers s h)
    | shutdownAll =>
      exact ih _ (by simp [keysNodup, applyOp, shutdown_executors])

theorem filter_key_nil_of_not_mem (l : List (String × Executor)) (n : String)
    (h : n ∉ l.map Prod.fst) :
    l.filter (fun p => decide (p.1 = n) && !p.2.isShutdown) = [] := by
  induction l with
  | nil => rfl
  | cons hd tl ih =>
    simp only [List.map_cons, List.mem_cons] at h
    push_neg at h
    obtain ⟨h1, h2⟩ := h
    rw [List.filter_cons]
    have hfalse : (decide (hd.1 = n) && !hd.2.isShutdown) = false := by
      have : hd.1 ≠ n := fun he => h1 he.symm
      simp [this]
    rw [hfalse]
    exact ih h2

theorem length_filter_live_le_one (l : List (String × Executor)) (n : String)
    (h : (l.map Prod.fst).Nodup) :
    (l.filter (fun p => decide (p.1 = n) && !p.2.isShutdown)).length ≤ 1 := by
  induction l with
  | nil => simp
  | cons hd tl ih =>
    simp only [List.map_cons, List.nodup_cons] at h
    obtain ⟨hk_not, htl⟩ := h
    rw [List.filter_cons]
    by_cases hk : hd.1 = n
    · have hnil : tl.filter (fun p => decide (p.1 = n) && !p.2.isShutdown) = [] :=
        filter_key_nil_of_not_mem tl n (hk ▸ hk_not)
      by_cases hlive : hd.2.isShutdown = false
      · have : (decide (hd.1 = n) && !hd.2.isShutdown) = true := by simp [hk, hlive]
        rw [this, hnil]
        simp
      · have : (decide (hd.1 = n) && !hd.2.isShutdown) = false := by
          simp only [Bool.and_eq_false_iff]
          right
          simpa using hlive
        rw [this, hnil]
        simp
    · have : (decide (hd.1 = n) && !hd.2.isShutdown) = false := by simp [hk]
      rw [this]
      exact ih htl

/-! ### The claims -/

/-- Claim C1: two sequential calls `get_executor(n, "thread", 2)` then
`get_executor(n, "thread", 4)` return the same handle object — while a
live handle is registered under `n`, `get_executor` returns it unchanged
and the second call's `workers` argument is ignored, whatever core count
either call's environment reports. -/
theorem get_executor_reuse (cores cores2 : CpuCores) (n : String) (s s1 : RegState)
    (ex : Executor) (h : get_executor cores n "thread" 2 s = (.ok ex, s1)) :
    get_executor cores2 n "thread" 4 s1 = (.ok ex, s1) := by
  obtain ⟨hlook, hsd⟩ := get_executor_ok_live _ _ _ _ _ _ _ h
  exact get_executor_of_live _ _ _ _ _ _ hlook hsd

/-- Witness for C1: a fresh registry, name "n", workers 2 then 4. -/
theorem get_executor_reuse_witness :
    get_executor (.ok (some 4)) "n" "thread" 4
        ⟨[("n", ⟨0, .thread, 2, false, false⟩)], 1⟩ =
      (.ok ⟨0, .thread, 2, false, false⟩,
       ⟨[("n", ⟨0, .thread, 2, false, false⟩)], 1⟩) :=
  get_executor_reuse (.ok (some 4)) (.ok (some 4)) "n" initState
    ⟨[("n", ⟨0, .thread, 2, false, false⟩)], 1⟩ ⟨0, .thread, 2, false, false⟩ rfl

/-- Claim C4 fails as stated: the source compares
`executor_type.lower()`, so the kind "THREAD" — literally neither the
string "thread" nor "process", for which the claim demands an
invalid-kind failure — instead creates and returns a thread pool on a
fresh registry. -/
theorem get_executor_kind_claim_cex :
    "THREAD" ≠ "thread" ∧ "THREAD" ≠ "process"
    ∧ (get_executor (.ok (some 4)) "n" "THREAD" 1 initState).1 =
        .ok ⟨0, .thread, 1, false, false⟩ :=
  ⟨by decide, by decide, rfl⟩

/-- Claim C4 (amended): for every name and every kind string whose
lowercased value is neither "thread" nor "process", on the creation path
the claim describes — no live handle registered under the name —
`get_executor` fails synchronously with the invalid-kind
`ConcurrencyError`, and no handle is created (the fresh-id counter is
untouched). -/
theorem get_executor_invalid_kind (cores : CpuCores) (name execType : String)
    (workers : Nat) (s : RegState)
    (hth : pyLower execType ≠ "thread") (hpr : pyLower execType ≠ "process")
    (hstale : ∀ ex, lookupReg s.executors name = some ex → ex.isShutdown = true) :
    (get_executor cores name execType workers s).1 = .error (.invalidKind execType)
    ∧ (get_executor cores name execType workers s).2.nextId = s.nextId := by
  unfold get_executor
  cases hlook : lookupReg s.executors name with
  | none =>
    dsimp only
    unfold createExecutor
    rw [if_neg hpr, if_neg hth]
    exact ⟨rfl, rfl⟩
  | some ex0 =>
    dsimp only
    have hsd : ¬ ex0.isShutdown = false := by
      rw [hstale ex0 hlook]
      simp
    rw [if_neg hsd]
    unfold createExecutor
    rw [if_neg hpr, if_neg hth]
    exact ⟨rfl, rfl⟩

/-- Witness for C4: `get_executor("n", "invalid-kind", 1)` on a fresh
registry. -/
theorem get_executor_invalid_kind_witness :
    (get_executor (.ok (some 4)) "n" "invalid-kind" 1 initState).1 =
        .error (.invalidKind "invalid-kind")
    ∧ (get_executor (.ok (some 4)) "n" "invalid-kind" 1 initState).2.nextId = 0 :=
  get_executor_invalid_kind (.ok (some 4)) "n" "invalid-kind" 1 initState
    (by decide) (by decide) (fun ex h => nomatch h)

/-- Claim C10: while a live handle is registered under a name,
`get_executor` returns it for every kind string whatsoever — invalid
strings and the other pool kind included — without touching the state;
consequently an error result can only arise when no live handle exists
under the requested name. -/
theorem get_executor_live_skips_validation (cores : CpuCores) (name execType : String)
    (workers : Nat) (s : RegState) :
    (∀ ex, lookupReg s.executors name = some ex → ex.isShutdown = false →
      get_executor cores name execType workers s = (.ok ex, s))
    ∧ (∀ e, (get_executor cores name execType workers s).1 = .error e →
        ∀ ex, lookupReg s.executors name = some ex → ex.isShutdown = true) := by
  constructor
  · intro ex hlook hsd
    exact get_executor_of_live _ _ _ _ _ _ hlook hsd
  · intro e herr ex hlook
    by_contra hne
    have hsd : ex.isShutdown = false := by
      cases hb : ex.isShutdown
      · rfl
      · exact absurd hb hne
    rw [get_executor_of_live cores name execType workers s ex hlook hsd] at herr
    simp at herr

/-- Witness for C10: a live thread handle under "n" is returned even for
the kind string "bogus". -/
theorem get_executor_live_skips_validation_witness :
    get_executor (.ok (some 4)) "n" "bogus" 7
        ⟨[("n", ⟨0, .thread, 2, false, false⟩)], 1⟩ =
      (.ok ⟨0, .thread, 2, false, false⟩,
       ⟨[("n", ⟨0, .thread, 2, false, false⟩)], 1⟩) :=
  (get_executor_live_skips_validation (.ok (some 4)) "n" "bogus" 7
      ⟨[("n", ⟨0, .thread, 2, false, false⟩)], 1⟩).1
    ⟨0, .thread, 2, false, false⟩ rfl rfl

/-- Claim C6 fails as stated: the source compares the lowercased task
type, so the task type "CPU" — neither the string "cpu" nor "io", for
which the claim's "otherwise" branch demands the detected core count 4 —
gets the cpu-bound sizing `max(1, 4 - 1) = 3` instead. -/
theorem get_optimal_workers_claim_cex :
    "CPU" ≠ "cpu" ∧ "CPU" ≠ "io"
    ∧ get_optimal_workers (.ok (some 4)) "CPU" = 3
    ∧ get_optimal_workers (.ok (some 4)) "CPU" ≠ 4 := by
  decide

/-- Claim C6 (amended): with the branch comparisons made on the
lowercased task type as in the source, `get_optimal_workers` returns
`max(1, cores - 1)` when the task type lowers to "cpu", `cores * 2` when
it lowers to "io", and the detected core count otherwise; and for every
task type and every detection outcome the result is at least 1. -/
theorem get_optimal_workers_spec (c : Option Nat) (t : String) :
    (pyLower t = "cpu" → get_optimal_workers (.ok c) t = max 1 (cpuCountOr4 c - 1))
    ∧ (pyLower t = "io" → get_optimal_workers (.ok c) t = cpuCountOr4 c * 2)
    ∧ (pyLower t ≠ "cpu" → pyLower t ≠ "io" →
        get_optimal_workers (.ok c) t = cpuCountOr4 c)
    ∧ (∀ cores : CpuCores, 1 ≤ get_optimal_workers cores t) := by
  have hc4 : ∀ c0 : Option Nat, 1 ≤ cpuCountOr4 c0 := by
    intro c0
    cases c0 with
    | none => simp [cpuCountOr4]
    | some m =>
      by_cases hm : m = 0
      · simp [cpuCountOr4, hm]
      · simp only [cpuCountOr4, if_neg hm]
        omega
  refine ⟨?_, ?_, ?_, ?_⟩
  · intro h
    simp [get_optimal_workers, h]
  · intro h
    by_cases hcpu : pyLower t = "cpu"
    · rw [hcpu] at h
      exact absurd h (by decide)
    · simp [get_optimal_workers, hcpu, h]
  · intro h1 h2
    simp [get_optimal_workers, h1, h2]
  · intro cores
    cases cores with
    | error u => simp [get_optimal_workers]
    | ok c0 =>
      unfold get_optimal_workers
      dsimp only
      split_ifs with h1 h2
      · exact le_max_left _ _
      · have := hc4 c0
        omega
      · exact hc4 c0

/-- Witness for the amended C6 at 4 detected cores and the task types
"cpu", "io" and "other". -/
theorem get_optimal_workers_spec_witness :
    get_optimal_workers (.ok (some 4)) "cpu" = 3
    ∧ get_optimal_workers (.ok (some 4)) "io" = 8
    ∧ get_optimal_workers (.ok (some 4)) "other" = 4 :=
  ⟨((get_optimal_workers_spec (some 4) "cpu").1 (by decide)).trans (by decide),
   ((get_optimal_workers_spec (some 4) "io").2.1 (by decide)).trans (by decide),
   ((get_optimal_workers_spec (some 4) "other").2.2.1 (by decide) (by decide)).trans
     (by decide)⟩

/-- Claim C7: for every task type, when core-count detection raises,
`get_optimal_workers` returns the fixed fallback 4. -/
theorem get_optimal_workers_fallback (t : String) :
    get_optimal_workers (.error ()) t = 4 := rfl

/-- Claim C2: with no timeout, a non-empty batch and the named executor
obtained, `parallel_map` returns normally — per-item exceptions are never
re-raised — with exactly the successful results in completion order; each
failure is recorded (and logged) together with its offending item, and
both lists are, up to completion-order permutation, the successes
respectively failures of the submitted batch. -/
theorem parallel_map_item_failures {T R : Type} (cores : CpuCores) (run : T → TaskRun R)
    (items : List T) (execName execType : String) (workers chunkSize : Nat)
    (s s1 : RegState) (ex : Executor)
    (hne : items ≠ [])
    (hex : get_executor cores execName execType workers s = (.ok ex, s1)) :
    (parallel_map cores run items execName execType workers none chunkSize s).result =
      .ok (okResults (sortByTime (items.map fun it => (it, run it))))
    ∧ (parallel_map cores run items execName execType workers none chunkSize s).recorded =
        errRecords (sortByTime (items.map fun it => (it, run it)))
    ∧ (okResults (sortByTime (items.map fun it => (it, run it)))).Perm
        (okResults (items.map fun it => (it, run it)))
    ∧ (errRecords (sortByTime (items.map fun it => (it, run it)))).Perm
        (errRecords (items.map fun it => (it, run it)))
    ∧ (parallel_map cores run items execName execType workers none chunkSize s).state = s1 := by
  cases items with
  | nil => exact absurd rfl hne
  | cons hd tl =>
    have hpm :
        parallel_map cores run (hd :: tl) execName execType workers none chunkSize s =
          ⟨.ok (okResults (sortByTime ((hd :: tl).map fun it => (it, run it)))),
           errRecords (sortByTime ((hd :: tl).map fun it => (it, run it))), none, s1⟩ := by
      unfold parallel_map
      rw [hex]
      simp only [List.isEmpty_cons, Bool.false_eq_true, if_false]
      rw [collectCompleted_eq]
    refine ⟨?_, ?_, ?_, ?_, ?_⟩
    · rw [hpm]
    · rw [hpm]
    · exact List.Perm.filterMap _ (sortByTime_perm _)
    · exact List.Perm.filterMap _ (sortByTime_perm _)
    · rw [hpm]

/-- Witness for C2: squaring five numbers where the function raises on
the item 2; the four successful squares are returned (in completion
order) and the failure is recorded with its item. -/
theorem parallel_map_item_failures_witness :
    (parallel_map (.ok (some 2))
        (fun n : Nat => ⟨n, if n = 2 then .error "boom" else .ok (n * n)⟩)
        [0, 1, 2, 3, 4] "p" "thread" 3 none 1 initState).result = .ok [0, 1, 9, 16]
    ∧ (parallel_map (.ok (some 2))
        (fun n : Nat => ⟨n, if n = 2 then .error "boom" else .ok (n * n)⟩)
        [0, 1, 2, 3, 4] "p" "thread" 3 none 1 initState).recorded = [(2, "boom")] := by
  have h := parallel_map_item_failures (.ok (some 2))
    (fun n : Nat => ⟨n, if n = 2 then .error "boom" else .ok (n * n)⟩)
    [0, 1, 2, 3, 4] "p" "thread" 3 1 initState
    ⟨[("p", ⟨0, .thread, 3, false, false⟩)], 1⟩ ⟨0, .thread, 3, false, false⟩
    (by simp) rfl
  exact ⟨h.1.trans (by rfl), h.2.1.trans (by rfl)⟩

/-- Claim C3: when some submitted task completes later than the finite
timeout, `parallel_map` raises the timeout `ConcurrencyError`, logging a
positive count of the tasks still pending; no results are returned (the
completed ones included); the registry is exactly as `get_executor` left
it, the handle is still registered and live — not shut down — and any
subsequent `get_executor` call for the same name returns it again. -/
theorem parallel_map_timeout {T R : Type} (cores : CpuCores) (run : T → TaskRun R)
    (items : List T) (execName execType : String) (workers chunkSize t : Nat)
    (s s1 : RegState) (ex : Executor)
    (hne : items ≠ [])
    (hex : get_executor cores execName execType workers s = (.ok ex, s1))
    (hlate : ¬ (items.map fun it => (it, run it)).all fun p => p.2.time ≤ t) :
    (parallel_map cores run items execName execType workers (some t) chunkSize s).result =
      .error (.timedOut t)
    ∧ (parallel_map cores run items execName execType workers (some t) chunkSize s).pendingLogged =
        some (((items.map fun it => (it, run it)).filter fun p => ¬ p.2.time ≤ t).length)
    ∧ 0 < ((items.map fun it => (it, run it)).filter fun p => ¬ p.2.time ≤ t).length
    ∧ (parallel_map cores run items execName execType workers (some t) chunkSize s).state = s1
    ∧ lookupReg s1.executors execName = some ex
    ∧ ex.isShutdown = false
    ∧ (∀ cores2 workers2, get_executor cores2 execName execType workers2 s1 = (.ok ex, s1)) := by
  obtain ⟨hlook, hsd⟩ := get_executor_ok_live _ _ _ _ _ _ _ hex
  have hpos :
      0 < ((items.map fun it => (it, run it)).filter fun p => ¬ p.2.time ≤ t).length := by
    rw [List.all_eq_true] at hlate
    push_neg at hlate
    obtain ⟨p, hp, hnot⟩ := hlate
    have hmem : p ∈ (items.map fun it => (it, run it)).filter fun q => ¬ q.2.time ≤ t :=
      List.mem_filter.mpr ⟨hp, by simpa using hnot⟩
    calc 0 < 1 := Nat.zero_lt_one
      _ ≤ _ := List.length_pos.mpr (List.ne_nil_of_mem hmem)
  cases items with
  | nil => exact absurd rfl hne
  | cons hd tl =>
    have hpm :
        parallel_map cores run (hd :: tl) execName execType workers (some t) chunkSize s =
          ⟨.error (.timedOut t),
           errRecords (sortByTime (((hd :: tl).map fun it => (it, run it)).filter
             fun p => p.2.time ≤ t)),
           some ((((hd :: tl).map fun it => (it, run it)).filter fun p => ¬ p.2.time ≤ t).length),
           s1⟩ := by
      unfold parallel_map
      rw [hex]
      simp only [List.isEmpty_cons, Bool.false_eq_true, if_false]
      rw [if_neg hlate, collectCompleted_eq]
    refine ⟨?_, ?_, hpos, ?_, hlook, hsd, ?_⟩
    · rw [hpm]
    · rw [hpm]
    · rw [hpm]
    · intro cores2 workers2
      exact get_executor_of_live _ _ _ _ _ _ hlook hsd

/-- Witness for C3: three squares with completion times 0, 1, 2 against
a timeout of 1: the call fails with the timeout error, one task is
logged pending, and the pool handle survives for reuse. -/
theorem parallel_map_timeout_witness :
    (parallel_map (.ok (some 2)) (fun n : Nat => ⟨n, .ok (n * n)⟩)
        [0, 1, 2] "p" "thread" 3 (some 1) 1 initState).result = .error (.timedOut 1)
    ∧ (parallel_map (.ok (some 2)) (fun n : Nat => ⟨n, .ok (n * n)⟩)
        [0, 1, 2] "p" "thread" 3 (some 1) 1 initState).pendingLogged = some 1
    ∧ get_executor (.ok (some 8)) "p" "thread" 0
        (parallel_map (.ok (some 2)) (fun n : Nat => ⟨n, .ok (n * n)⟩)
          [0, 1, 2] "p" "thread" 3 (some 1) 1 initState).state =
        (.ok ⟨0, .thread, 3, false, false⟩,
         ⟨[("p", ⟨0, .thread, 3, false, false⟩)], 1⟩) := by
  have h := parallel_map_timeout (.ok (some 2)) (fun n : Nat => ⟨n, .ok (n * n)⟩)
    [0, 1, 2] "p" "thread" 3 1 1 initState
    ⟨[("p", ⟨0, .thread, 3, false, false⟩)], 1⟩ ⟨0, .thread, 3, false, false⟩
    (by simp) rfl (by decide)
  refine ⟨h.1, h.2.1.trans (by rfl), ?_⟩
  rw [h.2.2.2.1]
  exact h.2.2.2.2.2.2 (.ok (some 8)) 0

/-- Claim C8: for every function behaviour and configuration,
`parallel_map` on an empty batch returns the empty result list with
nothing recorded or logged, and leaves the registry untouched. -/
theorem parallel_map_empty (T R : Type) (cores : CpuCores) (run : T → TaskRun R)
    (execName execType : String) (workers : Nat) (timeout : Option Nat)
    (chunkSize : Nat) (s : RegState) :
    parallel_map cores run ([] : List T) execName execType workers timeout chunkSize s =
      ⟨.ok [], [], none, s⟩ := rfl

/-- Claim C9: `shutdown_executors` always clears the registry — a handle
whose shutdown raises is merely logged as a warning (by name) and does
not stop the others from being shut down — it raises nothing (it is a
total function into states), and a second call on the emptied registry,
and generally any call on an empty registry, is a no-op producing no
warnings. -/
theorem shutdown_executors_spec (s : RegState) :
    (shutdown_executors s).1.executors = []
    ∧ (shutdown_executors s).2 =
        (s.executors.filter fun p => p.2.shutdownRaises).map Prod.fst
    ∧ shutdown_executors (shutdown_executors s).1 = ((shutdown_executors s).1, []) :=
  ⟨rfl, rfl, rfl⟩

/-- Claim C5: along every serialized trace of getOrCreate / shutdownAll
operations — `_executor_lock` serializes racing calls, so a concurrent
history is some such trace — the registry holds at most one live handle
per name. -/
theorem registry_at_most_one_live (ops : List RegOp) (n : String) :
    ((runOps initState ops).executors.filter
      (fun p => decide (p.1 = n) && !p.2.isShutdown)).length ≤ 1 :=
  length_filter_live_le_one _ n
    (keysNodup_runOps ops initState (by simp [keysNodup, initState]))

